import Mathlib

/-!
Verification of the financial-controls anomaly-detection core
(`src/api/main.py`, aggregated by `src/api/index.py`).

Embedding conventions:
* A transaction amount is a rational number.  The Python code works on IEEE
  doubles, which are a subset of the rationals, and every arithmetic test the
  detectors perform on them (`%`, `>=`, `<`, `==`) is exact on doubles, so the
  rational embedding is faithful on all representable inputs.
* A pandas date cell is either a raw (string) value or a parsed datetime; the
  payload recorded is the civil date it denotes.  `detect_unusual_timing`
  reassigns the parsed column onto the frame (`df['date'] = pd.to_datetime(...)`),
  which the embedding threads as an explicit updated dataset.
* `df.duplicated(subset, keep=False)` marks exactly the rows whose key occurs
  at least twice; boolean-mask selection keeps original row order.
* Fallible code is embedded in `Except`.
-/

/-- Calendar date as held by a pandas datetime value (proleptic Gregorian). -/
structure CivilDate where
  year : Int
  month : Int
  day : Int
deriving DecidableEq, Repr

/-- One cell of the `date` column: either still a raw (unparsed) value, or a
parsed datetime.  The payload is the civil date the cell denotes. -/
inductive DateVal where
  | raw (d : CivilDate)
  | dt (d : CivilDate)
deriving DecidableEq, Repr

/-- Civil date denoted by a date cell. -/
def DateVal.civil : DateVal → CivilDate
  | .raw d => d
  | .dt d => d

/-- Embedding of `pd.to_datetime` applied to one cell: a raw cell becomes a
parsed datetime, a parsed cell is unchanged. -/
def toDatetime : DateVal → DateVal
  | .raw d => .dt d
  | .dt d => .dt d

/-- One row of the transaction table: `transaction_id`, `date`, `amount`,
`vendor` columns. -/
structure Tx where
  id : String
  date : DateVal
  amount : ℚ
  vendor : String
deriving DecidableEq, Repr

/-- Day count from 1970-01-01 of a civil date (Howard Hinnant's
`days_from_civil`, the standard proleptic-Gregorian conversion that pandas
datetimes realize).  Lean's `Int` division is Euclidean; all intermediate
dividends are nonnegative for the dates handled here, where it agrees with the
C truncating division of the reference algorithm. -/
def daysFromCivil (c : CivilDate) : Int :=
  let y := if c.month ≤ 2 then c.year - 1 else c.year
  let era := (if 0 ≤ y then y else y - 399) / 400
  let yoe := y - era * 400
  let mp := if 2 < c.month then c.month - 3 else c.month + 9
  let doy := (153 * mp + 2) / 5 + c.day - 1
  let doe := yoe * 365 + yoe / 4 - yoe / 100 + doy
  era * 146097 + doe - 719468

/-- Weekday (Monday = 0 … Sunday = 6, the pandas `.dt.weekday` convention) of a
day number; 1970-01-01 (day 0) is a Thursday (= 3). -/
def weekdayOfDays (z : Int) : Int := (z + 3) % 7

/-- The pandas `.dt.weekday` of a date cell. -/
def pandasWeekday (dv : DateVal) : Int := weekdayOfDays (daysFromCivil dv.civil)

/-- ISO-8601 weekday (Monday = 1 … Sunday = 7) of a date cell. -/
def isoWeekday (dv : DateVal) : Int := pandasWeekday dv + 1

/-- Grouping key used by `df.duplicated(subset=['date', 'amount', 'vendor'])`. -/
def dupKey (t : Tx) : DateVal × ℚ × String := (t.date, t.amount, t.vendor)

/-- Embedding of `detect_duplicate_payments`:
`df[df.duplicated(subset=['date', 'amount', 'vendor'], keep=False)]`, i.e. the
rows whose (date, amount, vendor) key occurs at least twice, in frame order. -/
def detect_duplicate_payments (df : List Tx) : List Tx :=
  df.filter (fun t => decide (2 ≤ df.countP (fun u => decide (dupKey u = dupKey t))))

/-- Embedding of `detect_unusual_timing`.  The source first executes
`df['date'] = pd.to_datetime(df['date'])`, an in-place reassignment of the
date column of the caller's frame, then selects `df['date'].dt.weekday >= 5`.
The first component is the returned selection, the second is the dataset as
the caller's frame is left after the call. -/
def detect_unusual_timing (df : List Tx) : List Tx × List Tx :=
  let df2 := df.map (fun t => { t with date := toDatetime t.date })
  (df2.filter (fun t => decide (5 ≤ pandasWeekday t.date)), df2)

/-- Exactness of `amount % 1000 == 0` on a rational in lowest terms
(`a.num / a.den`): it holds iff `1000 * a.den` divides `a.num`.  Python float
`%` is exact, so this is the faithful translation of the float test. -/
def isMultipleOf1000 (a : ℚ) : Bool := a.num % (1000 * (a.den : Int)) == 0

/-- Embedding of `detect_round_number_abuse`: `df[df['amount'] % 1000 == 0]`. -/
def detect_round_number_abuse (df : List Tx) : List Tx :=
  df.filter (fun t => isMultipleOf1000 t.amount)

/-- Embedding of `detect_threshold_avoidance`:
`df[(df['amount'] >= threshold * 0.9) & (df['amount'] < threshold)]`.
The Python default for `threshold` is 10000. -/
def detect_threshold_avoidance (df : List Tx) (threshold : ℚ) : List Tx :=
  df.filter (fun t => decide (threshold * 0.9 ≤ t.amount) && decide (t.amount < threshold))

/-- Most significant decimal digit of a natural number (0 for 0).  For
`abs(x) >= 1` this is the first character of `str(abs(x))`. -/
def msd (n : ℕ) : ℕ :=
  if n < 10 then n else msd (n / 10)
termination_by n
decreasing_by exact Nat.div_lt_self (by omega) (by norm_num)

/-- Leading digit extracted by `analyze_benford`'s
`int(str(abs(x))[0])` for an amount with `abs(x) >= 1`. -/
def leadingDigit (a : ℚ) : ℕ := msd (Int.toNat ⌊|a|⌋)

/-- Amounts retained by the Benford analyzer: those with `abs(x) >= 1`
(the lambda maps the others to `None`, which the subsequent `dropna` drops). -/
def retainedAmounts (df : List Tx) : List ℚ :=
  (df.map Tx.amount).filter (fun a => decide (1 ≤ |a|))

/-- One row of the Benford analysis table (`Digit`, `Actual`, `Expected`). -/
structure BenfordRow where
  digit : ℕ
  actual : ℚ
  expected : ℝ

/-- Embedding of `analyze_benford`.  `value_counts(normalize=True)` yields the
observed digit frequencies; aligning them with the reference series indexed by
1–9 and applying `fillna(0)` yields exactly one row per digit 1–9, the
`Actual` entry being 0 for unobserved digits (every observed leading digit of
a retained amount lies in 1–9, so the aligned index union is exactly 1–9). -/
noncomputable def analyze_benford (df : List Tx) : List BenfordRow :=
  let digits := (retainedAmounts df).map leadingDigit
  if digits = [] then []
  else
    (List.range' 1 9).map (fun d =>
      { digit := d
      , actual := (digits.countP (fun x => decide (x = d)) : ℚ) / (digits.length : ℚ)
      , expected := Real.logb 10 (1 + 1 / (d : ℝ)) })

/-- Fuel-indexed longest-common-subsequence length; the fuel is an upper bound
on the summed lengths, so `lcsAux (a.length + b.length) a b` computes the LCS
length of `a` and `b`. -/
def lcsAux : ℕ → List Char → List Char → ℕ
  | 0, _, _ => 0
  | _ + 1, [], _ => 0
  | _ + 1, _ :: _, [] => 0
  | n + 1, a :: as, b :: bs =>
    if a = b then lcsAux n as bs + 1
    else max (lcsAux n (a :: as) bs) (lcsAux n as (b :: bs))

/-- Longest-common-subsequence length of two character lists. -/
def lcsLen (a b : List Char) : ℕ := lcsAux (a.length + b.length) a b

/-- Modelled from the spec: the similarity scorer `fuzz.ratio` comes from the
external `thefuzz` package, whose code is not part of this repository; the
spec fixes only a deterministic, symmetric, reflexive, length-normalized
alignment-based ratio in the range 0–100 (Ratcliff/Obershelp-style or an
equivalent edit-based ratio).  This is the indel-distance-normalized
similarity `100 * (2 * LCS(a, b)) / (len(a) + len(b))`, with two empty
strings scoring 100 (identical). -/
def fuzzScore (a b : String) : ℚ :=
  if a.data.length + b.data.length = 0 then 100
  else 200 * (lcsLen a.data b.data : ℚ) / ((a.data.length + b.data.length : ℕ) : ℚ)

/-- Embedding of `df['vendor'].unique()`: distinct values in first-seen
order. -/
def uniqueFirstSeen : List String → List String
  | [] => []
  | v :: vs => v :: uniqueFirstSeen (vs.filter (fun w => decide (w ≠ v)))
termination_by l => l.length
decreasing_by
  simp only [List.length_cons]
  exact Nat.lt_succ_of_le (List.length_filter_le _ _)

/-- One emitted fuzzy match (`Vendor 1`, `Vendor 2`, `Similarity Score`). -/
structure FuzzyPair where
  vendor1 : String
  vendor2 : String
  similarity_score : ℚ
deriving DecidableEq, Repr

/-- All index pairs `(i, j)` with `i < j` of a list, as value pairs — the
`for i, v1 in enumerate(vendors): for v2 in vendors[i+1:]` double loop. -/
def allPairs : List String → List (String × String)
  | [] => []
  | v :: vs => vs.map (fun w => (v, w)) ++ allPairs vs

/-- Embedding of `detect_fuzzy_duplicates`: score every strictly-later pair of
distinct vendor names and keep those with `score >= threshold` (Python default
90). -/
def detect_fuzzy_duplicates (df : List Tx) (threshold : ℚ) : List FuzzyPair :=
  let vendors := uniqueFirstSeen (df.map Tx.vendor)
  ((allPairs vendors).filter (fun p => decide (threshold ≤ fuzzScore p.1 p.2))).map
    (fun p => { vendor1 := p.1, vendor2 := p.2, similarity_score := fuzzScore p.1 p.2 })

/-- One record of the JSON request body, after the endpoint's
`pd.to_datetime(..., errors='coerce')` and `pd.to_numeric(..., errors='coerce')`
cleaning passes: `none` stands for an unparseable cell (`NaT`/`NaN`). -/
structure RawTx where
  id : String
  date : Option CivilDate
  amount : Option ℚ
  vendor : String
deriving DecidableEq, Repr

/-- Rows surviving `df.dropna(subset=['date', 'amount'])`: both the date and
the amount parsed.  The surviving date cells are parsed datetimes. -/
def cleanRows (raw : List RawTx) : List Tx :=
  raw.filterMap (fun r =>
    match r.date, r.amount with
    | some d, some a => some { id := r.id, date := DateVal.dt d, amount := a, vendor := r.vendor }
    | _, _ => none)

/-- The `summary` object of a successful `/api/analyze` response. -/
structure Summary where
  total_transactions : ℕ
  duplicates : ℕ
  unusual_timing : ℕ
  round_numbers : ℕ
  threshold_flags : ℕ
deriving DecidableEq, Repr

/-- The `details` object of a successful `/api/analyze` response. -/
structure Details where
  duplicates : List Tx
  unusual_timing : List Tx
  round_numbers : List Tx
  threshold_flags : List Tx
  benford : List BenfordRow
  fuzzy_duplicates : List FuzzyPair

/-- A successful `/api/analyze` response body. -/
structure Response where
  summary : Summary
  details : Details

/-- The fuzzy-matching step as `index.py` performs it when `thefuzz` raises no
exception: `detect_fuzzy_duplicates(df)` with the default cutoff 90. -/
def fuzzyOk (df : List Tx) : Except String (List FuzzyPair) :=
  Except.ok (detect_fuzzy_duplicates df 90)

/-- Embedding of the `analyze` handler of `src/api/index.py`.  The whole body
sits in a single `try`/`except` that turns any raised exception into one error
response, so the handler is `Except`-valued; `fuzzyImpl` is the fuzzy-matching
step, the body's one call into external scoring code and the spec's example of
a failing detector (`fuzzyOk` is the non-raising instantiation).  The handler
rejects an empty request body and a dataset that is empty after cleaning,
runs the detectors in source order — duplicates on the incoming frame, then
`detect_unusual_timing`, whose column reassignment leaves the frame it
returns as `df2` for the remaining detectors — and assembles the summary
counts and detail lists from the same detector outputs.  No validation of
`threshold` is performed anywhere on this path. -/
noncomputable def analyze (raw : List RawTx) (threshold : ℚ)
    (fuzzyImpl : List Tx → Except String (List FuzzyPair)) : Except String Response :=
  if raw = [] then Except.error "No data provided"
  else
    let df := cleanRows raw
    if df = [] then Except.error "No valid data after parsing"
    else
      let duplicates := detect_duplicate_payments df
      let timing := detect_unusual_timing df
      let df2 := timing.2
      let round_numbers := detect_round_number_abuse df2
      let threshold_flags := detect_threshold_avoidance df2 threshold
      let benford := analyze_benford df2
      match fuzzyImpl df2 with
      | Except.error e => Except.error e
      | Except.ok fz =>
          Except.ok
            { summary :=
                { total_transactions := df2.length
                , duplicates := duplicates.length
                , unusual_timing := timing.1.length
                , round_numbers := round_numbers.length
                , threshold_flags := threshold_flags.length }
            , details :=
                { duplicates := duplicates
                , unusual_timing := timing.1
                , round_numbers := round_numbers
                , threshold_flags := threshold_flags
                , benford := benford
                , fuzzy_duplicates := fz } }

/-- Exact multiple-of-1000 test characterized: `amount % 1000 == 0` holds iff
the amount is an exact integer multiple of 1000. -/
lemma isMultipleOf1000_iff (a : ℚ) :
    isMultipleOf1000 a = true ↔ ∃ k : ℤ, a = 1000 * k := by
  unfold isMultipleOf1000
  rw [beq_iff_eq]
  constructor
  · intro h
    obtain ⟨m, hm⟩ := Int.dvd_of_emod_eq_zero h
    refine ⟨m, ?_⟩
    have hden : ((a.den : ℚ)) ≠ 0 := Nat.cast_ne_zero.mpr (Rat.den_ne_zero a)
    have hm' : (a.num : ℚ) = 1000 * (a.den : ℚ) * (m : ℚ) := by exact_mod_cast hm
    rw [← Rat.num_div_den a, hm']
    field_simp
    ring
  · rintro ⟨k, hk⟩
    subst hk
    have hcast : (1000 : ℚ) * (k : ℚ) = ((1000 * k : ℤ) : ℚ) := by push_cast; ring
    rw [hcast, Rat.num_intCast, Rat.den_intCast]
    simp [Int.mul_emod_right 1000 k]

/-- C5: the round-number detector returns, in original dataset order, exactly
the transactions whose raw signed amount is an exact integer multiple of 1000
(`amount mod 1000 == 0` on the exact numeric value). -/
theorem round_number_spec (df : List Tx) :
    (detect_round_number_abuse df).Sublist df ∧
    ∀ t, t ∈ detect_round_number_abuse df ↔ t ∈ df ∧ ∃ k : ℤ, t.amount = 1000 * k := by
  refine ⟨List.filter_sublist df, fun t => ?_⟩
  unfold detect_round_number_abuse
  rw [List.mem_filter, isMultipleOf1000_iff]

/-- Reference date reused by the concrete example datasets (a Monday). -/
def dateM : CivilDate := ⟨2025, 12, 1⟩

/-- Amount -2000.0: flagged by the round-number detector. -/
def txNeg : Tx := ⟨"N", .dt dateM, -2000, "v"⟩

/-- Amount 0.0: flagged by the round-number detector. -/
def txZero : Tx := ⟨"Z", .dt dateM, 0, "v"⟩

/-- Amount 999.999999: not flagged. -/
def txJust : Tx := ⟨"J", .dt dateM, 999999999 / 1000000, "v"⟩

/-- Amount 1000.0000000001: not flagged. -/
def txOver : Tx := ⟨"O", .dt dateM, 10000000000001 / 10000000000, "v"⟩

/-- Round-number boundary dataset from the claim. -/
def dfRound : List Tx := [txNeg, txZero, txJust, txOver]

/-- Witness for C5: on the claim's boundary amounts, -2000.0 and 0.0 are
flagged while 999.999999 and 1000.0000000001 are not. -/
theorem round_number_spec_witness :
    txNeg ∈ detect_round_number_abuse dfRound ∧
    txZero ∈ detect_round_number_abuse dfRound ∧
    txJust ∉ detect_round_number_abuse dfRound ∧
    txOver ∉ detect_round_number_abuse dfRound := by
  refine ⟨((round_number_spec dfRound).2 txNeg).mpr
            ⟨by simp [dfRound], -2, by norm_num [txNeg]⟩,
         ((round_number_spec dfRound).2 txZero).mpr
            ⟨by simp [dfRound], 0, by norm_num [txZero]⟩, ?_, ?_⟩
  · intro h
    obtain ⟨-, k, hk⟩ := ((round_number_spec dfRound).2 txJust).mp h
    simp only [txJust] at hk
    have h9 : (999999999 : ℚ) = 1000000000 * (k : ℚ) := by
      field_simp at hk
      linarith [hk]
    have h9' : (999999999 : ℤ) = 1000000000 * k := by exact_mod_cast h9
    omega
  · intro h
    obtain ⟨-, k, hk⟩ := ((round_number_spec dfRound).2 txOver).mp h
    simp only [txOver] at hk
    have h9 : (10000000000001 : ℚ) = 10000000000000 * (k : ℚ) := by
      field_simp at hk
      linarith [hk]
    have h9' : (10000000000001 : ℤ) = 10000000000000 * k := by exact_mod_cast h9
    omega

/-- C4: for a positive threshold t, the threshold-avoidance detector returns,
in original dataset order, exactly the transactions with amount in the
half-open interval [0.9*t, t); the lower boundary 0.9*t is included and the
upper boundary t is excluded. -/
theorem threshold_avoidance_spec (t : ℚ) (ht : 0 < t) (df : List Tx) :
    (detect_threshold_avoidance df t).Sublist df ∧
    (∀ tx, tx ∈ detect_threshold_avoidance df t ↔
       tx ∈ df ∧ 0.9 * t ≤ tx.amount ∧ tx.amount < t) ∧
    (∀ tx ∈ df, tx.amount = 0.9 * t → tx ∈ detect_threshold_avoidance df t) ∧
    (∀ tx, tx.amount = t → tx ∉ detect_threshold_avoidance df t) := by
  have hmem : ∀ tx, tx ∈ detect_threshold_avoidance df t ↔
      tx ∈ df ∧ 0.9 * t ≤ tx.amount ∧ tx.amount < t := by
    intro tx
    unfold detect_threshold_avoidance
    rw [List.mem_filter]
    simp only [Bool.and_eq_true, decide_eq_true_eq]
    constructor
    · rintro ⟨h1, h2, h3⟩
      exact ⟨h1, by linarith [h2], h3⟩
    · rintro ⟨h1, h2, h3⟩
      exact ⟨h1, ⟨by linarith [h2], h3⟩⟩
  refine ⟨List.filter_sublist df, hmem, ?_, ?_⟩
  · intro tx hin heq
    refine (hmem tx).mpr ⟨hin, le_of_eq heq.symm, by rw [heq]; linarith⟩
  · intro tx heq h
    have hlt := ((hmem tx).mp h).2.2
    rw [heq] at hlt
    exact lt_irrefl t hlt

/-- Amount exactly 0.9 * 10000: included. -/
def txB1 : Tx := ⟨"B1", .dt dateM, 9000, "v"⟩

/-- Amount exactly the threshold 10000: excluded. -/
def txB2 : Tx := ⟨"B2", .dt dateM, 10000, "v"⟩

/-- Threshold boundary dataset from the claim. -/
def dfThr : List Tx := [txB1, txB2]

/-- Witness for C4: at threshold 10000, the amount 9000 = 0.9 * 10000 is
flagged and the amount 10000 is not. -/
theorem threshold_avoidance_spec_witness :
    txB1 ∈ detect_threshold_avoidance dfThr 10000 ∧
    txB2 ∉ detect_threshold_avoidance dfThr 10000 := by
  have h := threshold_avoidance_spec 10000 (by decide) dfThr
  exact ⟨h.2.2.1 txB1 (by simp [dfThr]) (by norm_num [txB1]),
         h.2.2.2 txB2 (by norm_num [txB2])⟩

/-- The pandas weekday of any date cell is nonnegative. -/
lemma pandasWeekday_nonneg (dv : DateVal) : 0 ≤ pandasWeekday dv :=
  Int.emod_nonneg _ (by norm_num)

/-- The pandas weekday of any date cell is below 7. -/
lemma pandasWeekday_lt (dv : DateVal) : pandasWeekday dv < 7 :=
  Int.emod_lt_of_pos _ (by norm_num)

/-- C6: the unusual-timing detector returns, in frame order, exactly the
transactions whose date falls on a Saturday or a Sunday — the pandas test
`weekday >= 5` (Monday = 0) coincides with ISO weekday 6 or 7.  The weekday is
a function of the calendar date only (untouched by datetime conversion) and is
invariant under shifting the day number by whole weeks. -/
theorem unusual_timing_spec (df : List Tx) :
    ((detect_unusual_timing df).1).Sublist (detect_unusual_timing df).2 ∧
    (∀ t, t ∈ (detect_unusual_timing df).1 ↔
       t ∈ (detect_unusual_timing df).2 ∧
         (isoWeekday t.date = 6 ∨ isoWeekday t.date = 7)) ∧
    (∀ dv, isoWeekday (toDatetime dv) = isoWeekday dv) ∧
    (∀ z k : ℤ, weekdayOfDays (z + 7 * k) = weekdayOfDays z) := by
  refine ⟨?_, ?_, ?_, ?_⟩
  · simp only [detect_unusual_timing]
    exact List.filter_sublist _
  · intro t
    simp only [detect_unusual_timing, List.mem_filter, decide_eq_true_eq]
    constructor
    · rintro ⟨h1, h2⟩
      have hub := pandasWeekday_lt t.date
      refine ⟨h1, ?_⟩
      unfold isoWeekday
      omega
    · rintro ⟨h1, h2⟩
      refine ⟨h1, ?_⟩
      unfold isoWeekday at h2
      omega
  · intro dv
    cases dv <;> rfl
  · intro z k
    unfold weekdayOfDays
    omega

/-- Transaction dated Saturday 2025-12-06. -/
def txSat : Tx := ⟨"S", .dt ⟨2025, 12, 6⟩, 100, "v"⟩

/-- Transaction dated Sunday 2025-11-30 (month boundary with 2025-12-01). -/
def txSun : Tx := ⟨"U", .dt ⟨2025, 11, 30⟩, 100, "v"⟩

/-- Transaction dated Thursday 2026-01-01 (year boundary). -/
def txThu : Tx := ⟨"Y", .dt ⟨2026, 1, 1⟩, 100, "v"⟩

/-- Transaction dated Monday 2025-12-01. -/
def txMon : Tx := ⟨"M", .dt dateM, 100, "v"⟩

/-- Timing dataset exercising the week cycle across month and year
boundaries. -/
def dfTim : List Tx := [txSat, txSun, txThu, txMon]

/-- Witness for C6: Saturday 2025-12-06 and Sunday 2025-11-30 are flagged;
Thursday 2026-01-01 (across the year boundary) and Monday 2025-12-01 (across
the month boundary from 2025-11-30) are not. -/
theorem unusual_timing_spec_witness :
    txSat ∈ (detect_unusual_timing dfTim).1 ∧
    txSun ∈ (detect_unusual_timing dfTim).1 ∧
    txThu ∉ (detect_unusual_timing dfTim).1 ∧
    txMon ∉ (detect_unusual_timing dfTim).1 := by
  have h := (unusual_timing_spec dfTim).2.1
  refine ⟨(h txSat).mpr ⟨by decide, Or.inl (by decide)⟩,
          (h txSun).mpr ⟨by decide, Or.inr (by decide)⟩,
          fun hmem => ?_, fun hmem => ?_⟩
  · have h2 := ((h txThu).mp hmem).2
    revert h2
    decide
  · have h2 := ((h txMon).mp hmem).2
    revert h2
    decide

/-- C1: the duplicate-payment detector returns, in original dataset order,
exactly the transactions whose (date, amount, vendor) key occurs at least
twice in the dataset, key equality being exact; the returned set is closed
under the grouping key. -/
theorem duplicate_payments_spec (df : List Tx) :
    (detect_duplicate_payments df).Sublist df ∧
    (∀ t, t ∈ detect_duplicate_payments df ↔
       t ∈ df ∧ 2 ≤ df.countP (fun u => decide (dupKey u = dupKey t))) ∧
    (∀ t u, t ∈ detect_duplicate_payments df → u ∈ df → dupKey u = dupKey t →
       u ∈ detect_duplicate_payments df) := by
  have hmem : ∀ t, t ∈ detect_duplicate_payments df ↔
      t ∈ df ∧ 2 ≤ df.countP (fun u => decide (dupKey u = dupKey t)) := by
    intro t
    unfold detect_duplicate_payments
    rw [List.mem_filter]
    simp only [decide_eq_true_eq]
  refine ⟨List.filter_sublist df, hmem, ?_⟩
  intro t u ht hu hk
  have h2 := ((hmem t).mp ht).2
  refine (hmem u).mpr ⟨hu, ?_⟩
  have heq : (fun w => decide (dupKey w = dupKey u)) =
      (fun w => decide (dupKey w = dupKey t)) := by
    funext w
    rw [hk]
  rw [heq]
  exact h2

/-- Row TXN_T1 of the repository's unit-test dataset. -/
def txT1 : Tx := ⟨"TXN_T1", .dt ⟨2025, 12, 1⟩, 1000, "Vendor A"⟩

/-- Row TXN_T2 of the repository's unit-test dataset. -/
def txT2 : Tx := ⟨"TXN_T2", .dt ⟨2025, 12, 6⟩, 9500, "Vendor B"⟩

/-- Row TXN_T3 of the repository's unit-test dataset. -/
def txT3 : Tx := ⟨"TXN_T3", .dt ⟨2025, 12, 7⟩, 10000, "Vendor A"⟩

/-- Row TXN_T4 of the repository's unit-test dataset. -/
def txT4 : Tx := ⟨"TXN_T4", .dt ⟨2025, 12, 2⟩, 5000, "Vendor C"⟩

/-- Row TXN_T5: an exact (date, amount, vendor) duplicate of TXN_T1. -/
def txT5 : Tx := ⟨"TXN_T5", .dt ⟨2025, 12, 1⟩, 1000, "Vendor A"⟩

/-- The unit-test dataset with the duplicate row appended. -/
def dfDup : List Tx := [txT1, txT2, txT3, txT4, txT5]

/-- Witness for C1: on the unit-test dataset, both members of the duplicated
(date, amount, vendor) class are returned and a key occurring once is not. -/
theorem duplicate_payments_spec_witness :
    txT1 ∈ detect_duplicate_payments dfDup ∧
    txT5 ∈ detect_duplicate_payments dfDup ∧
    txT2 ∉ detect_duplicate_payments dfDup := by
  refine ⟨((duplicate_payments_spec dfDup).2.1 txT1).mpr ⟨by decide, by decide⟩,
          ((duplicate_payments_spec dfDup).2.1 txT5).mpr ⟨by decide, by decide⟩,
          fun h => ?_⟩
  have h2 := ((duplicate_payments_spec dfDup).2.1 txT2).mp h
  revert h2
  decide

/-- Bounds on the most significant decimal digit: for positive n it lies in
1..9. -/
lemma msd_bounds : ∀ n : ℕ, 1 ≤ n → 1 ≤ msd n ∧ msd n ≤ 9 := by
  intro n
  induction n using Nat.strong_induction_on with
  | _ n ih =>
    intro h1
    rw [msd]
    split
    · next h => exact ⟨h1, by omega⟩
    · next h =>
      have hdiv : n / 10 < n := Nat.div_lt_self (by omega) (by norm_num)
      exact ih (n / 10) hdiv (by omega)

/-- The leading digit of an amount with `abs(x) >= 1` lies in 1..9. -/
lemma leadingDigit_bounds (a : ℚ) (h : 1 ≤ |a|) :
    1 ≤ leadingDigit a ∧ leadingDigit a ≤ 9 := by
  apply msd_bounds
  have h1 : (1 : ℤ) ≤ ⌊|a|⌋ := Int.le_floor.mpr (by exact_mod_cast h)
  omega

/-- Summing an indicator over a duplicate-free index list containing the hit
gives exactly one. -/
lemma sum_map_ite_one (a : ℕ) : ∀ ds : List ℕ, ds.Nodup → a ∈ ds →
    (ds.map (fun d => if a = d then (1 : ℚ) else 0)).sum = 1 := by
  intro ds
  induction ds with
  | nil => intro _ h; exact absurd h (List.not_mem_nil a)
  | cons d ds ih =>
    intro hnd hmem
    rw [List.nodup_cons] at hnd
    simp only [List.map_cons, List.sum_cons]
    by_cases had : a = d
    · subst had
      rw [if_pos rfl]
      have hz : (ds.map (fun d' => if a = d' then (1 : ℚ) else 0)).sum = 0 := by
        apply List.sum_eq_zero
        intro x hx
        obtain ⟨d', hd', rfl⟩ := List.mem_map.mp hx
        rw [if_neg]
        intro hcontra
        rw [← hcontra] at hd'
        exact hnd.1 hd'
      rw [hz]
      norm_num
    · rw [if_neg had]
      have hmem' : a ∈ ds := by
        rcases List.mem_cons.mp hmem with h | h
        · exact absurd h had
        · exact h
      rw [ih hnd.2 hmem']
      norm_num

/-- Partition identity: when every element's digit lies in the duplicate-free
index list, the per-digit counts sum to the number of elements. -/
lemma countP_digits_sum (ds : List ℕ) (hnd : ds.Nodup) :
    ∀ xs : List ℕ, (∀ x ∈ xs, x ∈ ds) →
      (ds.map (fun d => ((xs.countP (fun x => decide (x = d)) : ℕ) : ℚ))).sum
        = xs.length := by
  intro xs
  induction xs with
  | nil => intro _; simp
  | cons x xs ih =>
    intro hmem
    have hx : x ∈ ds := hmem x (List.mem_cons_self x xs)
    have hxs : ∀ y ∈ xs, y ∈ ds := fun y hy => hmem y (List.mem_cons_of_mem x hy)
    have hcongr :
        ds.map (fun d => ((((x :: xs).countP (fun y => decide (y = d))) : ℕ) : ℚ)) =
        ds.map (fun d => ((xs.countP (fun y => decide (y = d)) : ℕ) : ℚ)
          + if x = d then (1 : ℚ) else 0) := by
      apply List.map_congr_left
      intro d _
      rw [List.countP_cons]
      by_cases hxd : x = d
      · simp [hxd]
      · simp [hxd]
    rw [hcongr, List.sum_map_add, ih hxs, sum_map_ite_one x ds hnd hx,
      List.length_cons]
    push_cast
    ring

/-- Dividing each summand by a constant divides the sum. -/
lemma sum_map_div (ds : List ℕ) (f : ℕ → ℚ) (c : ℚ) :
    (ds.map (fun d => f d / c)).sum = (ds.map f).sum / c := by
  simp only [div_eq_mul_inv]
  exact List.sum_map_mul_right ds f c⁻¹

/-- Every member of the retained-amount list has absolute value at least 1. -/
lemma retained_abs (df : List Tx) (a : ℚ) (ha : a ∈ retainedAmounts df) :
    1 ≤ |a| := by
  unfold retainedAmounts at ha
  have := (List.mem_filter.mp ha).2
  simpa using this

/-- C2: the Benford analyzer retains exactly the transactions with
`abs(amount) >= 1`; with no retained transaction the result is empty, and
otherwise it contains exactly 9 rows, one per leading digit 1-9, whose actual
entry is the observed relative frequency among retained transactions (0 for
absent digits), the actual entries summing to 1, and whose expected entry is
`log10(1 + 1/d)`. -/
theorem benford_spec (df : List Tx) :
    (retainedAmounts df = [] → analyze_benford df = []) ∧
    (retainedAmounts df ≠ [] →
      (analyze_benford df).length = 9 ∧
      (∀ i, i < 9 →
        ∃ row, (analyze_benford df)[i]? = some row ∧
          row.digit = i + 1 ∧
          row.actual = (((retainedAmounts df).map leadingDigit).countP
              (fun x => decide (x = i + 1)) : ℚ) / ((retainedAmounts df).length : ℚ) ∧
          row.expected = Real.logb 10 (1 + 1 / ((i + 1 : ℕ) : ℝ))) ∧
      ((analyze_benford df).map BenfordRow.actual).sum = 1) := by
  constructor
  · intro h
    unfold analyze_benford
    rw [h]
    simp
  · intro h
    have hne : (retainedAmounts df).map leadingDigit ≠ [] := by
      simpa using h
    have hb : analyze_benford df = (List.range' 1 9).map (fun d =>
        { digit := d
        , actual := (((retainedAmounts df).map leadingDigit).countP
            (fun x => decide (x = d)) : ℚ)
              / (((retainedAmounts df).map leadingDigit).length : ℚ)
        , expected := Real.logb 10 (1 + 1 / (d : ℝ)) }) := by
      unfold analyze_benford
      rw [if_neg hne]
    refine ⟨?_, ?_, ?_⟩
    · rw [hb, List.length_map, List.length_range']
    · intro i hi
      refine ⟨{ digit := i + 1
              , actual := (((retainedAmounts df).map leadingDigit).countP
                  (fun x => decide (x = i + 1)) : ℚ)
                    / ((retainedAmounts df).length : ℚ)
              , expected := Real.logb 10 (1 + 1 / ((i + 1 : ℕ) : ℝ)) },
        ?_, rfl, rfl, rfl⟩
      rw [hb, List.getElem?_map, List.getElem?_range' 1 1 hi, Option.map_some',
        one_mul, Nat.add_comm 1 i]
      simp [List.length_map]
    · have hmemds : ∀ x ∈ (retainedAmounts df).map leadingDigit, x ∈ List.range' 1 9 := by
        intro x hx
        obtain ⟨a, ha, rfl⟩ := List.mem_map.mp hx
        have hbd := leadingDigit_bounds a (retained_abs df a ha)
        rw [List.mem_range'_1]
        omega
      have hnd : (List.range' 1 9).Nodup := by decide
      rw [hb, List.map_map]
      have hcomp : (BenfordRow.actual ∘ fun d =>
          ({ digit := d
           , actual := (((retainedAmounts df).map leadingDigit).countP
               (fun x => decide (x = d)) : ℚ)
                 / (((retainedAmounts df).map leadingDigit).length : ℚ)
           , expected := Real.logb 10 (1 + 1 / (d : ℝ)) } : BenfordRow)) =
          fun d => (((retainedAmounts df).map leadingDigit).countP
               (fun x => decide (x = d)) : ℚ)
                 / (((retainedAmounts df).map leadingDigit).length : ℚ) := rfl
      rw [hcomp, sum_map_div, countP_digits_sum (List.range' 1 9) hnd
        ((retainedAmounts df).map leadingDigit) hmemds]
      have hlen : (((retainedAmounts df).map leadingDigit).length : ℚ) ≠ 0 := by
        simp only [ne_eq, Nat.cast_eq_zero, List.length_eq_zero]
        exact hne
      exact div_self hlen

/-- Transaction with amount 0.0: excluded from Benford analysis. -/
def txSub : Tx := ⟨"S0", .dt dateM, 0, "v"⟩

/-- Dataset with no amount of absolute value at least 1. -/
def dfBenEmpty : List Tx := [txSub]

/-- Dataset with a single retained amount (leading digit 2). -/
def dfBenOne : List Tx := [txNeg]

/-- Witness for C2: a dataset with only sub-unit amounts yields an empty
Benford table, while a dataset with one retained amount yields the 9-row
table whose actual frequencies sum to 1. -/
theorem benford_spec_witness :
    analyze_benford dfBenEmpty = [] ∧
    (analyze_benford dfBenOne).length = 9 ∧
    ((analyze_benford dfBenOne).map BenfordRow.actual).sum = 1 := by
  refine ⟨(benford_spec dfBenEmpty).1 (by decide), ?_, ?_⟩
  · exact ((benford_spec dfBenOne).2 (by decide)).1
  · exact ((benford_spec dfBenOne).2 (by decide)).2.2

/-- The fueled LCS is symmetric at every fuel value. -/
lemma lcsAux_symm : ∀ (n : ℕ) (a b : List Char), lcsAux n a b = lcsAux n b a := by
  intro n
  induction n with
  | zero => intro a b; rfl
  | succ n ih =>
    intro a b
    match a, b with
    | [], [] => rfl
    | [], c :: cs => rfl
    | c :: cs, [] => rfl
    | a :: as, b :: bs =>
      simp only [lcsAux]
      by_cases hab : a = b
      · subst hab
        rw [if_pos rfl, if_pos rfl, ih]
      · rw [if_neg hab, if_neg (fun h => hab h.symm), ih (a :: as) bs,
          ih as (b :: bs), Nat.max_comm]

/-- The fueled LCS never exceeds the length of the first list. -/
lemma lcsAux_le_left : ∀ (n : ℕ) (a b : List Char), lcsAux n a b ≤ a.length := by
  intro n
  induction n with
  | zero => intro a b; exact Nat.zero_le _
  | succ n ih =>
    intro a b
    match a, b with
    | [], _ => simp [lcsAux]
    | _ :: _, [] => simp [lcsAux]
    | a :: as, b :: bs =>
      simp only [lcsAux, List.length_cons]
      by_cases hab : a = b
      · rw [if_pos hab]
        exact Nat.succ_le_succ (ih as bs)
      · rw [if_neg hab]
        apply Nat.max_le.mpr
        refine ⟨ih (a :: as) bs, ?_⟩
        exact le_trans (ih as (b :: bs)) (Nat.le_succ _)

/-- With enough fuel, the LCS of a list with itself is its length. -/
lemma lcsAux_self : ∀ (n : ℕ) (v : List Char), v.length ≤ n → lcsAux n v v = v.length := by
  intro n
  induction n with
  | zero =>
    intro v hv
    have hnil : v = [] := List.length_eq_zero.mp (Nat.le_zero.mp hv)
    subst hnil
    rfl
  | succ n ih =>
    intro v hv
    match v with
    | [] => rfl
    | a :: as =>
      simp only [lcsAux, List.length_cons]
      rw [if_pos trivial, ih as (by simp at hv; omega)]

/-- LCS length is symmetric. -/
lemma lcsLen_symm (a b : List Char) : lcsLen a b = lcsLen b a := by
  unfold lcsLen
  rw [Nat.add_comm b.length a.length]
  exact lcsAux_symm _ a b

/-- LCS length is bounded by the first list's length. -/
lemma lcsLen_le_left (a b : List Char) : lcsLen a b ≤ a.length :=
  lcsAux_le_left _ a b

/-- LCS length is bounded by the second list's length. -/
lemma lcsLen_le_right (a b : List Char) : lcsLen a b ≤ b.length := by
  rw [lcsLen_symm]
  exact lcsAux_le_left _ b a

/-- LCS of a list with itself is its length. -/
lemma lcsLen_self (v : List Char) : lcsLen v v = v.length :=
  lcsAux_self _ v (by omega)

/-- The similarity score is symmetric. -/
lemma fuzzScore_symm (a b : String) : fuzzScore a b = fuzzScore b a := by
  unfold fuzzScore
  rw [Nat.add_comm b.data.length a.data.length, lcsLen_symm b.data a.data]

/-- The similarity score of a string with itself is 100. -/
lemma fuzzScore_self (v : String) : fuzzScore v v = 100 := by
  unfold fuzzScore
  by_cases h : v.data.length + v.data.length = 0
  · rw [if_pos h]
  · rw [if_neg h, lcsLen_self]
    have hl : (0 : ℚ) < ((v.data.length + v.data.length : ℕ) : ℚ) := by
      have hp : 0 < v.data.length + v.data.length := Nat.pos_of_ne_zero h
      exact_mod_cast hp
    rw [div_eq_iff (ne_of_gt hl)]
    push_cast
    ring

/-- The similarity score is nonnegative. -/
lemma fuzzScore_nonneg (a b : String) : 0 ≤ fuzzScore a b := by
  unfold fuzzScore
  split
  · norm_num
  · positivity

/-- The similarity score is at most 100. -/
lemma fuzzScore_le (a b : String) : fuzzScore a b ≤ 100 := by
  unfold fuzzScore
  split
  · norm_num
  · next h =>
    have hl : (0 : ℚ) < ((a.data.length + b.data.length : ℕ) : ℚ) := by
      have hp : 0 < a.data.length + b.data.length := Nat.pos_of_ne_zero h
      exact_mod_cast hp
    rw [div_le_iff₀ hl]
    have h1 : (lcsLen a.data b.data : ℚ) ≤ (a.data.length : ℚ) := by
      exact_mod_cast lcsLen_le_left a.data b.data
    have h2 : (lcsLen a.data b.data : ℚ) ≤ (b.data.length : ℚ) := by
      exact_mod_cast lcsLen_le_right a.data b.data
    push_cast
    linarith

/-- Membership in the first-seen deduplication is membership in the source. -/
lemma mem_uniqueFirstSeen (l : List String) (x : String) :
    x ∈ uniqueFirstSeen l ↔ x ∈ l := by
  induction l using uniqueFirstSeen.induct with
  | case1 => simp [uniqueFirstSeen]
  | case2 v vs ih =>
    rw [uniqueFirstSeen, List.mem_cons, ih, List.mem_filter, List.mem_cons]
    by_cases hxv : x = v
    · subst hxv; simp
    · simp [hxv]

/-- The first-seen deduplication is duplicate-free. -/
lemma nodup_uniqueFirstSeen (l : List String) : (uniqueFirstSeen l).Nodup := by
  induction l using uniqueFirstSeen.induct with
  | case1 => simp [uniqueFirstSeen]
  | case2 v vs ih =>
    rw [uniqueFirstSeen, List.nodup_cons]
    refine ⟨?_, ih⟩
    rw [mem_uniqueFirstSeen, List.mem_filter]
    rintro ⟨-, hv⟩
    simp at hv

/-- Both components of an enumerated pair come from the vendor list. -/
lemma allPairs_mem (vs : List String) (p : String × String) (hp : p ∈ allPairs vs) :
    p.1 ∈ vs ∧ p.2 ∈ vs := by
  induction vs with
  | nil => cases hp
  | cons v ws ih =>
    simp only [allPairs, List.mem_append] at hp
    rcases hp with h | h
    · obtain ⟨w, hw, rfl⟩ := List.mem_map.mp h
      exact ⟨List.mem_cons_self _ _, List.mem_cons_of_mem _ hw⟩
    · obtain ⟨h1, h2⟩ := ih h
      exact ⟨List.mem_cons_of_mem _ h1, List.mem_cons_of_mem _ h2⟩

/-- Every unordered pair of distinct vendor-list members is enumerated in one
of its two orders. -/
lemma allPairs_cover (vs : List String) (a b : String) (ha : a ∈ vs) (hb : b ∈ vs)
    (hab : a ≠ b) : (a, b) ∈ allPairs vs ∨ (b, a) ∈ allPairs vs := by
  induction vs with
  | nil => cases ha
  | cons v ws ih =>
    rcases List.mem_cons.mp ha with rfl | ha'
    · have hb' : b ∈ ws := by
        rcases List.mem_cons.mp hb with h | h
        · exact absurd h.symm hab
        · exact h
      left
      simp only [allPairs, List.mem_append]
      exact Or.inl (List.mem_map.mpr ⟨b, hb', rfl⟩)
    · rcases List.mem_cons.mp hb with rfl | hb'
      · right
        simp only [allPairs, List.mem_append]
        exact Or.inl (List.mem_map.mpr ⟨a, ha', rfl⟩)
      · rcases ih ha' hb' with h | h
        · left
          simp only [allPairs, List.mem_append]
          exact Or.inr h
        · right
          simp only [allPairs, List.mem_append]
          exact Or.inr h

/-- In a duplicate-free list, at most one entry equals a given value. -/
lemma countP_eq_le_one (b : String) : ∀ ws : List String, ws.Nodup →
    ws.countP (fun w => decide (w = b)) ≤ 1 := by
  intro ws
  induction ws with
  | nil => simp
  | cons w ws ih =>
    intro hnd
    rw [List.nodup_cons] at hnd
    rw [List.countP_cons]
    by_cases hwb : w = b
    · subst hwb
      have hz : ws.countP (fun x => decide (x = w)) = 0 := by
        rw [List.countP_eq_zero]
        intro x hx
        simp only [decide_eq_true_eq]
        rintro rfl
        exact hnd.1 hx
      simp [hz]
    · have hle := ih hnd.2
      simpa [hwb] using hle

/-- Over a duplicate-free vendor list, the strictly-later pair enumeration
contains at most one pair matching a given unordered pair of names. -/
lemma allPairs_countP_le_one : ∀ vs : List String, vs.Nodup → ∀ a b : String,
    (allPairs vs).countP
      (fun p => decide ((p.1 = a ∧ p.2 = b) ∨ (p.1 = b ∧ p.2 = a))) ≤ 1 := by
  intro vs
  induction vs with
  | nil => intro _ a b; simp [allPairs]
  | cons v ws ih =>
    intro hnd a b
    rw [List.nodup_cons] at hnd
    simp only [allPairs, List.countP_append, List.countP_map]
    have hpairs : ∀ q ∈ allPairs ws, q.1 ∈ ws ∧ q.2 ∈ ws := fun q hq => allPairs_mem ws q hq
    by_cases hva : v = a
    · subst hva
      have h2 : (allPairs ws).countP
          (fun p => decide ((p.1 = v ∧ p.2 = b) ∨ (p.1 = b ∧ p.2 = v))) = 0 := by
        rw [List.countP_eq_zero]
        intro q hq
        simp only [decide_eq_true_eq]
        rintro (⟨h3, -⟩ | ⟨-, h4⟩)
        · exact hnd.1 (h3 ▸ (hpairs q hq).1)
        · exact hnd.1 (h4 ▸ (hpairs q hq).2)
      by_cases hvb : v = b
      · subst hvb
        have h1 : ws.countP ((fun p => decide ((p.1 = v ∧ p.2 = v) ∨ (p.1 = v ∧ p.2 = v)))
            ∘ (fun w => (v, w))) = 0 := by
          rw [List.countP_eq_zero]
          intro w hw
          simp only [Function.comp_apply, decide_eq_true_eq]
          rintro (⟨-, h4⟩ | ⟨-, h4⟩) <;> exact hnd.1 (h4 ▸ hw)
        rw [h1, h2]
        norm_num
      · have h1 : ws.countP ((fun p => decide ((p.1 = v ∧ p.2 = b) ∨ (p.1 = b ∧ p.2 = v)))
            ∘ (fun w => (v, w))) ≤ 1 := by
          have hsame : ((fun p => decide ((p.1 = v ∧ p.2 = b) ∨ (p.1 = b ∧ p.2 = v)))
              ∘ (fun w => (v, w))) = fun w => decide (w = b) := by
            funext w
            simp [hvb]
          rw [hsame]
          exact countP_eq_le_one b ws hnd.2
        omega
    · by_cases hvb : v = b
      · subst hvb
        have h2 : (allPairs ws).countP
            (fun p => decide ((p.1 = a ∧ p.2 = v) ∨ (p.1 = v ∧ p.2 = a))) = 0 := by
          rw [List.countP_eq_zero]
          intro q hq
          simp only [decide_eq_true_eq]
          rintro (⟨-, h4⟩ | ⟨h3, -⟩)
          · exact hnd.1 (h4 ▸ (hpairs q hq).2)
          · exact hnd.1 (h3 ▸ (hpairs q hq).1)
        have h1 : ws.countP ((fun p => decide ((p.1 = a ∧ p.2 = v) ∨ (p.1 = v ∧ p.2 = a)))
            ∘ (fun w => (v, w))) ≤ 1 := by
          have hsame : ((fun p => decide ((p.1 = a ∧ p.2 = v) ∨ (p.1 = v ∧ p.2 = a)))
              ∘ (fun w => (v, w))) = fun w => decide (w = a) := by
            funext w
            simp [hva]
          rw [hsame]
          exact countP_eq_le_one a ws hnd.2
        omega
      · have h1 : ws.countP ((fun p => decide ((p.1 = a ∧ p.2 = b) ∨ (p.1 = b ∧ p.2 = a)))
            ∘ (fun w => (v, w))) = 0 := by
          rw [List.countP_eq_zero]
          intro w hw
          simp only [Function.comp_apply, decide_eq_true_eq]
          rintro (⟨h3, -⟩ | ⟨h3, -⟩)
          · exact hva h3
          · exact hvb h3
        have h2 := ih hnd.2 a b
        omega

/-- C3: the vendor similarity score is symmetric, reflexive with value 100,
and lies in [0, 100]; the fuzzy matcher emits at most one pair per unordered
pair of distinct vendor names, and emits a pair for a given unordered pair of
distinct dataset vendor names exactly when its score reaches the cutoff. -/
theorem fuzzy_matcher_spec :
    (∀ a b : String, fuzzScore a b = fuzzScore b a) ∧
    (∀ v : String, fuzzScore v v = 100) ∧
    (∀ a b : String, 0 ≤ fuzzScore a b ∧ fuzzScore a b ≤ 100) ∧
    (∀ (df : List Tx) (t : ℚ) (a b : String),
      (detect_fuzzy_duplicates df t).countP
        (fun p => decide ((p.vendor1 = a ∧ p.vendor2 = b)
          ∨ (p.vendor1 = b ∧ p.vendor2 = a))) ≤ 1) ∧
    (∀ (df : List Tx) (t : ℚ) (a b : String),
      a ∈ uniqueFirstSeen (df.map Tx.vendor) →
      b ∈ uniqueFirstSeen (df.map Tx.vendor) →
      a ≠ b →
      ((∃ p ∈ detect_fuzzy_duplicates df t,
          (p.vendor1 = a ∧ p.vendor2 = b) ∨ (p.vendor1 = b ∧ p.vendor2 = a)) ↔
        t ≤ fuzzScore a b)) := by
  refine ⟨fuzzScore_symm, fuzzScore_self,
    fun a b => ⟨fuzzScore_nonneg a b, fuzzScore_le a b⟩, ?_, ?_⟩
  · intro df t a b
    simp only [detect_fuzzy_duplicates, List.countP_map]
    have hcomp : ((fun p => decide ((p.vendor1 = a ∧ p.vendor2 = b)
        ∨ (p.vendor1 = b ∧ p.vendor2 = a))) ∘
        (fun p : String × String =>
          ({ vendor1 := p.1, vendor2 := p.2
           , similarity_score := fuzzScore p.1 p.2 } : FuzzyPair))) =
        fun p : String × String =>
          decide ((p.1 = a ∧ p.2 = b) ∨ (p.1 = b ∧ p.2 = a)) := rfl
    rw [hcomp, List.countP_filter]
    calc List.countP (fun p : String × String =>
            decide ((p.1 = a ∧ p.2 = b) ∨ (p.1 = b ∧ p.2 = a)) &&
              decide (t ≤ fuzzScore p.1 p.2))
          (allPairs (uniqueFirstSeen (df.map Tx.vendor)))
        ≤ List.countP (fun p : String × String =>
            decide ((p.1 = a ∧ p.2 = b) ∨ (p.1 = b ∧ p.2 = a)))
          (allPairs (uniqueFirstSeen (df.map Tx.vendor))) := by
          apply List.countP_mono_left
          intro p _ hp
          exact (Bool.and_eq_true _ _).mp hp |>.1
      _ ≤ 1 := allPairs_countP_le_one _ (nodup_uniqueFirstSeen _) a b
  · intro df t a b ha hb hab
    constructor
    · rintro ⟨p, hp, hcase⟩
      simp only [detect_fuzzy_duplicates] at hp
      obtain ⟨q, hq, rfl⟩ := List.mem_map.mp hp
      have hq2 := (List.mem_filter.mp hq).2
      rw [decide_eq_true_eq] at hq2
      rcases hcase with ⟨h1, h2⟩ | ⟨h1, h2⟩
      · simp only at h1 h2
        rw [← h1, ← h2]
        exact hq2
      · simp only at h1 h2
        rw [fuzzScore_symm a b, ← h1, ← h2]
        exact hq2
    · intro ht
      rcases allPairs_cover (uniqueFirstSeen (df.map Tx.vendor)) a b ha hb hab with h | h
      · refine ⟨{ vendor1 := a, vendor2 := b, similarity_score := fuzzScore a b }, ?_,
          Or.inl ⟨rfl, rfl⟩⟩
        simp only [detect_fuzzy_duplicates]
        refine List.mem_map.mpr ⟨(a, b), List.mem_filter.mpr ⟨h, ?_⟩, rfl⟩
        simpa using ht
      · refine ⟨{ vendor1 := b, vendor2 := a, similarity_score := fuzzScore b a }, ?_,
          Or.inr ⟨rfl, rfl⟩⟩
        simp only [detect_fuzzy_duplicates]
        refine List.mem_map.mpr ⟨(b, a), List.mem_filter.mpr ⟨h, ?_⟩, rfl⟩
        rw [fuzzScore_symm b a] at *
        simpa using ht

/-- Fuzzy example row with vendor name "ab". -/
def txF1 : Tx := ⟨"F1", .dt dateM, 1, "ab"⟩

/-- Fuzzy example row with vendor name "ac". -/
def txF2 : Tx := ⟨"F2", .dt dateM, 2, "ac"⟩

/-- Two-vendor dataset for the fuzzy-matcher witness. -/
def dfFuzz : List Tx := [txF1, txF2]

/-- Witness for C3: at cutoff 50 on a dataset with distinct vendor names
"ab" and "ac", a pair for this unordered pair is emitted exactly when their
score reaches the cutoff. -/
theorem fuzzy_matcher_spec_witness :
    (∃ p ∈ detect_fuzzy_duplicates dfFuzz 50,
        (p.vendor1 = "ab" ∧ p.vendor2 = "ac") ∨ (p.vendor1 = "ac" ∧ p.vendor2 = "ab")) ↔
      (50 : ℚ) ≤ fuzzScore "ab" "ac" := by
  refine fuzzy_matcher_spec.2.2.2.2 dfFuzz 50 "ab" "ac" ?_ ?_ (by decide)
  · exact (mem_uniqueFirstSeen _ _).mpr (by simp [dfFuzz, txF1, txF2])
  · exact (mem_uniqueFirstSeen _ _).mpr (by simp [dfFuzz, txF1, txF2])

/-- Dataset whose single row still carries a raw (unparsed) date value, as in
the CSV pipeline of `main.py` where dates arrive as strings. -/
def dfMut : List Tx := [⟨"M1", .raw ⟨2025, 12, 6⟩, 100, "A"⟩]

/-- Counterexample to C8: running `detect_unusual_timing` on a dataset whose
date column is not yet parsed leaves the caller's frame changed — the date
cell has been reassigned to its parsed datetime — so the input dataset is not
unchanged after running this detector. -/
theorem timing_mutates_dataset_example :
    (detect_unusual_timing dfMut).2 ≠ dfMut := by decide

/-- C8 amended: the duplicate, round-number, threshold-avoidance, Benford and
fuzzy detectors read the dataset purely, but `detect_unusual_timing`
reassigns the parsed date column onto the caller's frame; the frame it leaves
behind is the input with every date cell parsed (same length), and it is
unchanged only when every date was already parsed. -/
theorem timing_mutation_spec (df : List Tx) :
    (detect_unusual_timing df).2 = df.map (fun t => { t with date := toDatetime t.date }) ∧
    (detect_unusual_timing df).2.length = df.length ∧
    ((∀ t ∈ df, ∃ d, t.date = DateVal.dt d) → (detect_unusual_timing df).2 = df) := by
  refine ⟨rfl, by simp [detect_unusual_timing], ?_⟩
  intro h
  simp only [detect_unusual_timing]
  have hid : ∀ t ∈ df, ({ t with date := toDatetime t.date } : Tx) = t := by
    intro t ht
    obtain ⟨d, hd⟩ := h t ht
    cases t with
    | mk i dv a v =>
      simp only at hd
      subst hd
      rfl
  calc df.map (fun t => { t with date := toDatetime t.date })
      = df.map id := List.map_congr_left hid
    _ = df := List.map_id df

/-- A dataset whose dates are all parsed datetimes. -/
def dfNoMut : List Tx := [txMon]

/-- Witness for the amended C8: on a dataset whose dates are already parsed,
`detect_unusual_timing` leaves the frame unchanged. -/
theorem timing_mutation_spec_witness :
    (detect_unusual_timing dfNoMut).2 = dfNoMut :=
  (timing_mutation_spec dfNoMut).2.2 (by
    intro t ht
    rw [dfNoMut, List.mem_singleton] at ht
    subst ht
    exact ⟨dateM, rfl⟩)

/-- Single-row request body (Monday date, amount 0) for the aggregator
examples. -/
def rawOne : List RawTx := [⟨"T1", some dateM, some 0, "A"⟩]

/-- Counterexample to C7: when the fuzzy-matching step raises, the single
try/except wrapping the whole `analyze` body turns the entire run into one
error response — no other detector's results are reported and no section is
marked as failed — whereas the same request with a non-raising fuzzy step
succeeds. -/
theorem fuzzy_failure_aborts_run :
    analyze rawOne 10000 (fun _ => Except.error "boom") = Except.error "boom" ∧
    (analyze rawOne 10000 fuzzyOk).isOk = true := by
  constructor
  · simp [analyze, rawOne, cleanRows]
  · simp [analyze, rawOne, cleanRows, fuzzyOk, Except.isOk, Except.toBool]

/-- C7 amended: a failure raised inside any detector step of the `analyze`
handler propagates to the single try/except around the whole body, so the
endpoint returns only the error and reports none of the other detectors'
results (modeled at the fuzzy-matching step, the spec's example). -/
theorem detector_failure_propagates (raw : List RawTx) (t : ℚ) (e : String)
    (f : List Tx → Except String (List FuzzyPair))
    (h1 : raw ≠ []) (h2 : cleanRows raw ≠ [])
    (hf : f (detect_unusual_timing (cleanRows raw)).2 = Except.error e) :
    analyze raw t f = Except.error e := by
  simp only [analyze]
  rw [if_neg h1, if_neg h2, hf]

/-- Witness for the amended C7: a concrete failing fuzzy step aborts a
concrete one-row run with its error. -/
theorem detector_failure_propagates_witness :
    analyze rawOne 10000 (fun _ => Except.error "x") = Except.error "x" :=
  detector_failure_propagates rawOne 10000 "x" _ (by decide) (by decide) rfl

/-- Counterexample to C9: a negative threshold is not rejected — the analyze
call with threshold -5 still succeeds and produces detector results. -/
theorem negative_threshold_accepted_example :
    (analyze rawOne (-5) fuzzyOk).isOk = true := by
  simp [analyze, rawOne, cleanRows, fuzzyOk, Except.isOk, Except.toBool]

/-- C9 amended: the handler performs no parameter validation: any threshold,
including non-positive ones, is accepted and the analysis succeeds; for a
non-positive threshold the threshold-avoidance section is simply empty, since
the interval [0.9*t, t) is empty.  (The similarity cutoff is not
caller-suppliable on this path at all; it is fixed at 90.) -/
theorem no_parameter_validation_spec (t : ℚ) (ht : t ≤ 0) :
    (∀ df : List Tx, detect_threshold_avoidance df t = []) ∧
    (∀ raw : List RawTx, raw ≠ [] → cleanRows raw ≠ [] →
      (analyze raw t fuzzyOk).isOk = true) := by
  constructor
  · intro df
    unfold detect_threshold_avoidance
    apply List.filter_eq_nil_iff.mpr
    intro tx _
    simp only [Bool.and_eq_true, decide_eq_true_eq, not_and, not_lt]
    intro hge
    have h09 : t ≤ t * 0.9 := by linarith
    linarith
  · intro raw h1 h2
    simp only [analyze]
    rw [if_neg h1, if_neg h2]
    rfl

/-- Witness for the amended C9: at threshold -5 the boundary dataset yields an
empty threshold section while the analyze call itself succeeds. -/
theorem no_parameter_validation_spec_witness :
    detect_threshold_avoidance dfThr (-5) = [] ∧
    (analyze rawOne (-5) fuzzyOk).isOk = true :=
  ⟨(no_parameter_validation_spec (-5) (by decide)).1 dfThr,
   (no_parameter_validation_spec (-5) (by decide)).2 rawOne (by decide) (by decide)⟩

/-- C10: every successful analyze response has each summary count equal to the
length of the corresponding details list, and total_transactions equal to the
number of rows surviving validation. -/
theorem summary_counts_spec (raw : List RawTx) (t : ℚ)
    (f : List Tx → Except String (List FuzzyPair)) (r : Response)
    (h : analyze raw t f = Except.ok r) :
    r.summary.duplicates = r.details.duplicates.length ∧
    r.summary.unusual_timing = r.details.unusual_timing.length ∧
    r.summary.round_numbers = r.details.round_numbers.length ∧
    r.summary.threshold_flags = r.details.threshold_flags.length ∧
    r.summary.total_transactions = (cleanRows raw).length := by
  by_cases h1 : raw = []
  · simp [analyze, h1] at h
  by_cases h2 : cleanRows raw = []
  · simp [analyze, h1, h2] at h
  simp only [analyze] at h
  rw [if_neg h1, if_neg h2] at h
  rcases hfz : f (detect_unusual_timing (cleanRows raw)).2 with e | fz
  · rw [hfz] at h
    exact Except.noConfusion h
  · rw [hfz] at h
    injection h with hr
    subst hr
    refine ⟨rfl, rfl, rfl, rfl, ?_⟩
    simp [detect_unusual_timing]

/-- The successful response of `analyze` on `rawOne` with threshold 10. -/
def respEx : Response :=
  { summary := { total_transactions := 1, duplicates := 0, unusual_timing := 0
               , round_numbers := 1, threshold_flags := 0 }
  , details := { duplicates := [], unusual_timing := []
               , round_numbers := [⟨"T1", .dt dateM, 0, "A"⟩]
               , threshold_flags := [], benford := [], fuzzy_duplicates := [] } }

/-- Concrete evaluation of the aggregator on the one-row request. -/
lemma analyze_rawOne_eval : analyze rawOne 10 fuzzyOk = Except.ok respEx := by
  have hthr : ¬ ((10 : ℚ) * 0.9 ≤ 0) := by norm_num
  simp +decide [analyze, rawOne, cleanRows, fuzzyOk, detect_duplicate_payments,
    detect_unusual_timing, detect_round_number_abuse, detect_threshold_avoidance,
    analyze_benford, retainedAmounts, detect_fuzzy_duplicates, uniqueFirstSeen,
    allPairs, dupKey, isMultipleOf1000, toDatetime, pandasWeekday, weekdayOfDays,
    daysFromCivil, DateVal.civil, hthr, respEx, dateM]

/-- Witness for C10: the concrete successful response has all summary counts
equal to the lengths of the corresponding detail lists and the total equal to
the surviving row count. -/
theorem summary_counts_spec_witness :
    respEx.summary.duplicates = respEx.details.duplicates.length ∧
    respEx.summary.unusual_timing = respEx.details.unusual_timing.length ∧
    respEx.summary.round_numbers = respEx.details.round_numbers.length ∧
    respEx.summary.threshold_flags = respEx.details.threshold_flags.length ∧
    respEx.summary.total_transactions = (cleanRows rawOne).length :=
  summary_counts_spec rawOne 10 fuzzyOk respEx analyze_rawOne_eval
